import Mathlib

/-!
# Hoppe timeseries pipeline — verification of the reconciliation core

Shallow embedding of the Hoppe ETL pipeline's reconciliation core
(ReconciliationMerger, GapDetector, ReferenceWindowRotator,
FetchWindowPlanner, DailySummaryStore) and of the Fabric notebook driver
`run_fabric_pipeline`.  The repository ships the notebook driver and the
pipeline documentation; the pipeline classes themselves (`pipeline.py`,
`config.py`) are not part of the sources, so the core components are
modelled from the specification's algorithm descriptions, as noted on
each definition.
-/

namespace Hoppe

/-- A single sensor reading.  Spec §3: uniqueness key is
`(vessel_id, signal_id, timestamp)`; `value` is nullable (absence is
meaningful and distinct from zero).  The provenance tag is not a field:
it is determined by which of the three merge inputs a reading sits in
(`old` = reference, `today` = in-progress daily summary, `new` = fresh
fetch), and is reassigned at load time, so persisted content carries no
tag. -/
structure SignalReading where
  vessel_id : Nat
  signal_id : Nat
  friendly_name : String
  timestamp : Nat
  value : Option Int
deriving DecidableEq

/-- The uniqueness key of a reading (spec §3). -/
def SignalReading.key (r : SignalReading) : Nat × Nat × Nat :=
  (r.vessel_id, r.signal_id, r.timestamp)

/-! ## DailySummaryStore (spec §4.5)

Modelled from the spec: `write(day_key, readings)` creates the partition
when absent and overwrites it in full when present; `read(day_key)`
returns the partition's readings or empty.  The store itself
(parquet-file persistence) is not in the sources. -/

namespace DailySummaryStore

/-- A day-keyed partition table: association list from day key to the
partition's readings. -/
def Store := List (Nat × List SignalReading)

/-- Modelled from the spec: `DailySummaryStore.write` — if no partition
exists for `day`, create it; if one exists, overwrite it in full (never
append-merge at the storage layer). -/
def write (s : Store) (day : Nat) (readings : List SignalReading) : Store :=
  if s.any (fun e => decide (e.1 = day)) then
    s.map (fun e => if e.1 = day then (day, readings) else e)
  else
    (day, readings) :: s

/-- Modelled from the spec: `DailySummaryStore.read` — the partition's
readings, or empty when no partition exists for the day. -/
def read (s : Store) (day : Nat) : List SignalReading :=
  match s.find? (fun e => decide (e.1 = day)) with
  | some e => e.2
  | none => []

end DailySummaryStore

/-! ## FetchWindowPlanner (spec §4.1)

Modelled from the spec: a pure function of the run's fixed timestamp and
the per-vessel last-persisted state; `to_date = T_run` always. -/

/-- Modelled from the spec: `FetchWindowPlanner` computes
`(from_date, to_date)` for a vessel: `from_date` is the end of the last
successfully persisted reading for the vessel, or the fixed look-back
floor `T_run - lookback` when no prior state exists; `to_date` is always
the run's fixed timestamp `T_run`, never re-evaluated per vessel. -/
def fetchWindow (Trun lookback : Nat) (lastPersisted : Nat → Option Nat)
    (v : Nat) : Nat × Nat :=
  (match lastPersisted v with
   | some t => t
   | none => Trun - lookback, Trun)

/-! ## Fabric notebook driver `run_fabric_pipeline`

Embedded from `src/Notebooks/fabric-notebook.ipynb`.  The fallible
collaborators are passed in as `Except` outcomes: Fabric storage setup,
secret retrieval, `pipeline.run`, and the database-integration step
(`sqlalchemy` engine creation plus `process_and_store_to_db`, which the
code wraps in its own inner `try`).  The function returns the result
dict (as `PipelineOutcome`) together with the log/warning messages it
emits, mirroring the notebook's `logger` calls around the database
step. -/

/-- The secrets returned by `get_fabric_secrets`: the API key and the
optional MSSQL connection string. -/
structure FabricSecrets where
  apiKey : Option String
  dbConn : Option String
deriving DecidableEq

/-- The dict returned by `run_fabric_pipeline`:
`{"status": "success", "run_timestamp": t}` or
`{"status": "error", "error": msg}`. -/
inductive PipelineOutcome where
  | success (runTimestamp : Nat)
  | error (msg : String)
deriving DecidableEq

/-- The `"status"` field of the returned dict. -/
def PipelineOutcome.status : PipelineOutcome → String
  | .success _ => "success"
  | .error _ => "error"

/-- Embedded from `run_fabric_pipeline` in the Fabric notebook: storage
setup, secret retrieval and `pipeline.run` are guarded by the outer
`try`, whose handler returns the error dict; the database-integration
step runs inside its own inner `try` whose handler only logs, so its
failure (or the absence of `MSSQL_CONNECTION_STRING`) never changes the
returned dict. -/
def run_fabric_pipeline (storageSetup : Except String (String × String × String))
    (secretsFetch : Except String FabricSecrets)
    (pipelineRun : Except String Nat)
    (dbIntegration : Except String Unit) : PipelineOutcome × List String :=
  match storageSetup with
  | .error e => (.error ("Pipeline failed: " ++ e), ["Pipeline failed: " ++ e])
  | .ok _ =>
    match secretsFetch with
    | .error e => (.error ("Pipeline failed: " ++ e), ["Pipeline failed: " ++ e])
    | .ok s =>
      match s.apiKey with
      | none =>
        (.error ("Pipeline failed: HOPPE_API_KEY not found in environment or secrets"),
         ["Pipeline failed: HOPPE_API_KEY not found in environment or secrets"])
      | some _ =>
        match pipelineRun with
        | .error e => (.error ("Pipeline failed: " ++ e), ["Pipeline failed: " ++ e])
        | .ok t =>
          match s.dbConn with
          | none =>
            (.success t, ["MSSQL_CONNECTION_STRING not set, skipping database integration"])
          | some _ =>
            match dbIntegration with
            | .ok _ =>
              (.success t,
               ["Database connection established", "Database integration completed successfully"])
            | .error e =>
              (.success t,
               ["Database connection established", "Database integration failed: " ++ e])

/-! ## ReconciliationMerger (spec §4.3)

Modelled from the spec: the merger consumes `reference_readings`
(tag `old`), `today_readings` (tag `today`) and `fresh_readings`
(tag `new`) and produces one deduplicated sequence.  Per uniqueness
key: if any `new` member exists, keep only that member (among several
`new` members the one that arrived last in fetch order); else if any
`today` member exists, keep only that member; else keep the `old`
member.  `old`-only keys are retained as legitimate history.  The
merger itself (`pipeline.py`) is not in the sources. -/

/-- `true` when some reading of `l` has uniqueness key `k`. -/
def hasKey (k : Nat × Nat × Nat) (l : List SignalReading) : Bool :=
  l.any (fun r => decide (r.key = k))

/-- Keep, for each uniqueness key, only the first reading of the list
that carries it. -/
def dedupKeys : List SignalReading → List SignalReading
  | [] => []
  | r :: rs => r :: dedupKeys (rs.filter (fun s => !(decide (s.key = r.key))))
termination_by l => l.length
decreasing_by
  simp only [List.length_cons]
  exact Nat.lt_succ_of_le (List.length_filter_le _ _)

/-- Modelled from the spec: `ReconciliationMerger` — scan the candidates
with the fresh fetch first (reversed, so that the first-kept `new`
member for a key is the one that arrived last in fetch order), then the
in-progress daily summary, then the historical reference window, and
keep the first reading encountered for each uniqueness key. -/
def reconciliationMerge (reference today fresh : List SignalReading) :
    List SignalReading :=
  dedupKeys (fresh.reverse ++ today ++ reference)

/-! ## GapDetector (spec §4.4)

Modelled from the spec: on a per-(vessel, signal) series, sorted by
timestamp, every maximal run of consecutive absent values yields one
Gap spanning the run's first and last timestamps (closed interval); no
minimum run length.  The detector itself is not in the sources; the
database table it feeds is `TimeSeries_Gaps`
(`imo`, `signal`, `gap_start`, `gap_end`, `loaddate`). -/

/-- Scan state: the open gap `(gap_start, last missing timestamp)`,
if the scan is currently inside a run of absent values. -/
def detectGapsAux : List (Nat × Option Int) → Option (Nat × Nat) → List (Nat × Nat)
  | [], none => []
  | [], some g => [g]
  | (t, none) :: rest, none => detectGapsAux rest (some (t, t))
  | (t, none) :: rest, some g => detectGapsAux rest (some (g.1, t))
  | (_, some _) :: rest, none => detectGapsAux rest none
  | (_, some _) :: rest, some g => g :: detectGapsAux rest none

/-- Modelled from the spec: `GapDetector` on one (vessel, signal) series,
given as (timestamp, nullable value) pairs in ascending timestamp order:
emit one `(gap_start, gap_end)` interval per maximal run of absent
values. -/
def detectGaps (series : List (Nat × Option Int)) : List (Nat × Nat) :=
  detectGapsAux series none

/-! ## ReferenceWindowRotator (spec §4.2)

Modelled from the spec: the window is an ordered sequence of daily
partitions, oldest first.  A daily rotation drops the oldest partition
if the window already holds `N` partitions (truncating further if a
retention change left it larger), then admits the newly frozen daily
partition as the newest.  The rotator itself is not in the sources;
partitions are identified here by their day keys. -/

/-- Modelled from the spec: one daily rotation of the reference window
with retention `N`: evict from the front (oldest first) whatever exceeds
`N - 1` entries, then append the newly frozen partition `p`. -/
def rotateWindow (N : Nat) (w : List Nat) (p : Nat) : List Nat :=
  (if w.length < N then w else w.drop (w.length + 1 - N)) ++ [p]

end Hoppe

namespace Hoppe

/-! ## Store lemmas -/

theorem find?_write_self (s : DailySummaryStore.Store) (day : Nat)
    (readings : List SignalReading) :
    (DailySummaryStore.write s day readings).find? (fun e => decide (e.1 = day))
      = some (day, readings) := by
  unfold DailySummaryStore.write
  by_cases h : s.any (fun e => decide (e.1 = day)) = true
  · simp only [h, if_true]
    induction s with
    | nil => simp at h
    | cons e s ih =>
      by_cases he : e.1 = day
      · simp [List.find?_cons_of_pos, he]
      · have hs : s.any (fun e => decide (e.1 = day)) = true := by
          simp only [List.any_cons, he, decide_eq_true_eq] at h
          simpa using h
        rw [List.map_cons, if_neg he, List.find?_cons_of_neg _ (by simpa using he)]
        exact ih hs
  · rw [if_neg h, List.find?_cons_of_pos _ (by simp)]

/-! ## Merger lemmas: the algebra of first-occurrence key deduplication -/

theorem dedupKeys_nil : dedupKeys [] = [] := by
  simp [dedupKeys]

theorem dedupKeys_cons (r : SignalReading) (rs : List SignalReading) :
    dedupKeys (r :: rs)
      = r :: dedupKeys (rs.filter (fun s => !(decide (s.key = r.key)))) := by
  rw [dedupKeys]

theorem filter_cons_pos (p : SignalReading → Bool) (a : SignalReading)
    (l : List SignalReading) (h : p a = true) :
    (a :: l).filter p = a :: l.filter p :=
  List.filter_cons_of_pos h

theorem filter_cons_neg (p : SignalReading → Bool) (a : SignalReading)
    (l : List SignalReading) (h : p a = false) :
    (a :: l).filter p = l.filter p :=
  List.filter_cons_of_neg (by simp [h])

theorem find?_cons_pos (p : SignalReading → Bool) (a : SignalReading)
    (l : List SignalReading) (h : p a = true) :
    (a :: l).find? p = some a :=
  List.find?_cons_of_pos l h

theorem find?_cons_neg (p : SignalReading → Bool) (a : SignalReading)
    (l : List SignalReading) (h : p a = false) :
    (a :: l).find? p = l.find? p :=
  List.find?_cons_of_neg l (by simp [h])

theorem mem_of_mem_dedupKeys :
    ∀ (l : List SignalReading) (a : SignalReading), a ∈ dedupKeys l → a ∈ l
  | [], a, h => by simpa [dedupKeys_nil] using h
  | r :: rs, a, h => by
    rw [dedupKeys_cons] at h
    rcases List.mem_cons.mp h with h | h
    · exact List.mem_cons.mpr (Or.inl h)
    · have hm := mem_of_mem_dedupKeys _ a h
      exact List.mem_cons_of_mem r (List.mem_filter.mp hm).1
termination_by l => l.length
decreasing_by
  simp only [List.length_cons]
  exact Nat.lt_succ_of_le (List.length_filter_le _ _)

theorem hasKey_filter (q : Nat × Nat × Nat → Bool) (k : Nat × Nat × Nat)
    (l : List SignalReading) :
    hasKey k (l.filter (fun s => q s.key)) = (q k && hasKey k l) := by
  rw [Bool.eq_iff_iff]
  simp only [hasKey, List.any_filter, List.any_eq_true, Bool.and_eq_true,
    decide_eq_true_eq]
  constructor
  · rintro ⟨x, hx, hqx, rfl⟩
    exact ⟨hqx, x, hx, rfl⟩
  · rintro ⟨hq, x, hx, rfl⟩
    exact ⟨x, hx, hq, rfl⟩

theorem hasKey_dedupKeys :
    ∀ (k : Nat × Nat × Nat) (l : List SignalReading),
      hasKey k (dedupKeys l) = hasKey k l
  | k, [] => by rw [dedupKeys_nil]
  | k, r :: rs => by
    rw [dedupKeys_cons]
    have h1 : hasKey k (r :: dedupKeys (rs.filter (fun s => !(decide (s.key = r.key)))))
        = (decide (r.key = k)
            || hasKey k (dedupKeys (rs.filter (fun s => !(decide (s.key = r.key)))))) := rfl
    rw [h1, hasKey_dedupKeys k (rs.filter (fun s => !(decide (s.key = r.key))))]
    rw [hasKey_filter (fun j => !(decide (j = r.key))) k rs]
    by_cases hk : r.key = k
    · subst hk
      simp [hasKey]
    · have hk2 : ¬(k = r.key) := fun h => hk h.symm
      simp [hasKey, hk, hk2]
termination_by k l => l.length
decreasing_by
  simp only [List.length_cons]
  exact Nat.lt_succ_of_le (List.length_filter_le _ _)

theorem dedupKeys_filter (q : Nat × Nat × Nat → Bool) :
    ∀ l : List SignalReading,
      dedupKeys (l.filter (fun s => q s.key))
        = (dedupKeys l).filter (fun s => q s.key)
  | [] => by simp [dedupKeys_nil]
  | r :: rs => by
    have hrec :=
      dedupKeys_filter q (rs.filter (fun s => !(decide (s.key = r.key))))
    by_cases hq : q r.key = true
    · rw [filter_cons_pos (fun s => q s.key) r rs hq, dedupKeys_cons, dedupKeys_cons,
        filter_cons_pos (fun s => q s.key) r _ hq,
        ← hrec, List.filter_filter, List.filter_filter]
      congr 1
      congr 1
      exact List.filter_congr (fun x _ => Bool.and_comm _ _)
    · rw [filter_cons_neg (fun s => q s.key) r rs (Bool.eq_false_iff.mpr hq), dedupKeys_cons,
        filter_cons_neg (fun s => q s.key) r _ (Bool.eq_false_iff.mpr hq),
        ← hrec, List.filter_filter]
      congr 1
      apply List.filter_congr
      intro x hx
      by_cases hQ : q x.key = true
      · have hxr : decide (x.key = r.key) = false := by
          by_cases hxk : x.key = r.key
          · rw [hxk] at hQ
            exact absurd hQ hq
          · simpa using hxk
        simp [hQ, hxr]
      · have hQ2 : q x.key = false := by
          cases h : q x.key
          · rfl
          · exact absurd h hQ
        simp [hQ2]
termination_by l => l.length
decreasing_by
  simp only [List.length_cons]
  exact Nat.lt_succ_of_le (List.length_filter_le _ _)

theorem dedupKeys_append :
    ∀ xs ys : List SignalReading,
      dedupKeys (xs ++ ys)
        = dedupKeys xs ++ dedupKeys (ys.filter (fun s => !(hasKey s.key xs)))
  | [], ys => by
    have h : (fun s : SignalReading => !(hasKey s.key [])) = fun s => true := by
      funext s
      rfl
    rw [List.nil_append, dedupKeys_nil, List.nil_append, h, List.filter_true]
  | x :: xs, ys => by
    rw [List.cons_append, dedupKeys_cons, dedupKeys_cons, List.filter_append,
      dedupKeys_append (xs.filter (fun s => !(decide (s.key = x.key))))
        (ys.filter (fun s => !(decide (s.key = x.key)))), List.cons_append,
      List.filter_filter]
    congr 2
    congr 1
    apply List.filter_congr
    intro s hs
    rw [hasKey_filter (fun j => !(decide (j = x.key))) s.key xs]
    have h2 : hasKey s.key (x :: xs) = (decide (x.key = s.key) || hasKey s.key xs) := rfl
    rw [h2]
    by_cases hk : s.key = x.key
    · rw [decide_eq_true hk, decide_eq_true hk.symm]
      simp
    · have hk2 : ¬(x.key = s.key) := fun h => hk h.symm
      rw [decide_eq_false hk, decide_eq_false hk2]
      simp
termination_by xs ys => xs.length
decreasing_by
  simp only [List.length_cons]
  exact Nat.lt_succ_of_le (List.length_filter_le _ _)

theorem dedupKeys_idem :
    ∀ l : List SignalReading, dedupKeys (dedupKeys l) = dedupKeys l
  | [] => by rw [dedupKeys_nil, dedupKeys_nil]
  | r :: rs => by
    rw [dedupKeys_cons, dedupKeys_cons]
    congr 1
    have hF := dedupKeys_filter (fun j => !(decide (j = r.key)))
      (rs.filter (fun s => !(decide (s.key = r.key))))
    have hFF : (rs.filter (fun s => !(decide (s.key = r.key)))).filter
          (fun s => !(decide (s.key = r.key)))
        = rs.filter (fun s => !(decide (s.key = r.key))) := by
      rw [List.filter_filter]
      exact List.filter_congr (fun x _ => Bool.and_self _)
    rw [← hF, hFF]
    exact dedupKeys_idem (rs.filter (fun s => !(decide (s.key = r.key))))
termination_by l => l.length
decreasing_by
  simp only [List.length_cons]
  exact Nat.lt_succ_of_le (List.length_filter_le _ _)

theorem find?_filter_key (q : Nat × Nat × Nat → Bool) (k : Nat × Nat × Nat)
    (hq : q k = true) :
    ∀ l : List SignalReading,
      (l.filter (fun s => q s.key)).find? (fun s => decide (s.key = k))
        = l.find? (fun s => decide (s.key = k))
  | [] => rfl
  | r :: rs => by
    by_cases hk : r.key = k
    · rw [filter_cons_pos (fun s => q s.key) r rs
          (by show q r.key = true; rw [hk]; exact hq),
        find?_cons_pos (fun s => decide (s.key = k)) r _ (by simp [hk]),
        find?_cons_pos (fun s => decide (s.key = k)) r rs (by simp [hk])]
    · by_cases hQ : q r.key = true
      · rw [filter_cons_pos (fun s => q s.key) r rs hQ,
          find?_cons_neg (fun s => decide (s.key = k)) r _ (by simp [hk]),
          find?_cons_neg (fun s => decide (s.key = k)) r rs (by simp [hk])]
        exact find?_filter_key q k hq rs
      · rw [filter_cons_neg (fun s => q s.key) r rs (Bool.eq_false_iff.mpr hQ),
          find?_cons_neg (fun s => decide (s.key = k)) r rs (by simp [hk])]
        exact find?_filter_key q k hq rs

theorem filter_dedupKeys_find? :
    ∀ (l : List SignalReading) (k : Nat × Nat × Nat) (r : SignalReading),
      l.find? (fun s => decide (s.key = k)) = some r →
      (dedupKeys l).filter (fun s => decide (s.key = k)) = [r]
  | [], k, r, h => by simp at h
  | x :: xs, k, r, h => by
    rw [dedupKeys_cons]
    by_cases hk : x.key = k
    · rw [find?_cons_pos (fun s => decide (s.key = k)) x xs (by simp [hk])] at h
      have hx : x = r := by injection h
      subst hx
      rw [filter_cons_pos (fun s => decide (s.key = k)) x _ (by simp [hk])]
      have htail : (dedupKeys (xs.filter (fun t => !(decide (t.key = x.key))))).filter
          (fun s => decide (s.key = k)) = [] := by
        rw [List.filter_eq_nil_iff]
        intro s hs
        have hmem := mem_of_mem_dedupKeys _ s hs
        have hne := (List.mem_filter.mp hmem).2
        simp only [Bool.not_eq_true', decide_eq_false_iff_not] at hne
        simp only [decide_eq_true_eq]
        intro hsk
        exact hne (hsk.trans hk.symm)
      rw [htail]
    · rw [find?_cons_neg (fun s => decide (s.key = k)) x xs (by simp [hk])] at h
      rw [filter_cons_neg (fun s => decide (s.key = k)) x _ (by simp [hk])]
      apply filter_dedupKeys_find? (xs.filter (fun t => !(decide (t.key = x.key)))) k r
      have hk2 : ¬(k = x.key) := fun h2 => hk h2.symm
      rw [find?_filter_key (fun j => !(decide (j = x.key))) k (by simpa using hk2) xs]
      exact h
termination_by l k r h => l.length
decreasing_by
  simp only [List.length_cons]
  exact Nat.lt_succ_of_le (List.length_filter_le _ _)

/-! ## Claim theorems for the store, the planner and the notebook driver -/

/-- C7: for every `day` and `readings`, `DailySummaryStore.write` creates
the partition when none exists and otherwise replaces it entirely, so a
subsequent `read` of that day returns exactly the written readings,
regardless of any previous content (no append-merge at the storage
layer). -/
theorem dailySummaryStore_write_read (s : DailySummaryStore.Store) (day : Nat)
    (readings : List SignalReading) :
    DailySummaryStore.read (DailySummaryStore.write s day readings) day = readings := by
  unfold DailySummaryStore.read
  rw [find?_write_self]

/-- C8: the fetch window computed by the FetchWindowPlanner has
`to_date = T_run` for every vessel, so any two vessels of the same run
share an identical upper bound; the bound is the run's fixed timestamp,
never re-evaluated per vessel. -/
theorem fetchWindow_to_date_run (Trun lookback : Nat)
    (lastPersisted : Nat → Option Nat) (v w : Nat) :
    (fetchWindow Trun lookback lastPersisted v).2 = Trun ∧
      (fetchWindow Trun lookback lastPersisted v).2
        = (fetchWindow Trun lookback lastPersisted w).2 :=
  ⟨rfl, rfl⟩

/-- C9: the database-integration step never changes the run's overall
result — if `MSSQL_CONNECTION_STRING` is unset, or if
`process_and_store_to_db` fails after the pipeline run itself succeeded,
`run_fabric_pipeline` still returns the success dict carrying the run
timestamp. -/
theorem run_fabric_pipeline_db_isolated
    (st : String × String × String) (s : FabricSecrets) (k e : String) (t : Nat)
    (db : Except String Unit)
    (hk : s.apiKey = some k)
    (hdb : s.dbConn = none ∨ db = .error e) :
    (run_fabric_pipeline (.ok st) (.ok s) (.ok t) db).1 = .success t := by
  rcases hdb with h | h
  · simp [run_fabric_pipeline, hk, h]
  · cases hc : s.dbConn with
    | none => simp [run_fabric_pipeline, hk, hc]
    | some c => simp [run_fabric_pipeline, hk, hc, h]

/-- Witness for C9: at a concrete storage config, secrets with the
database connection string unset, and a successful run, the result is
the success outcome with the run timestamp. -/
theorem run_fabric_pipeline_db_isolated_witness :
    (FabricSecrets.mk (some "key") none).apiKey = some "key" ∧
      (run_fabric_pipeline (.ok ("r", "t", "g"))
        (.ok (FabricSecrets.mk (some "key") none)) (.ok 42) (.ok ())).1
        = .success 42 :=
  ⟨rfl, run_fabric_pipeline_db_isolated ("r", "t", "g")
    (FabricSecrets.mk (some "key") none) "key" "boom" 42 (.ok ()) rfl (Or.inl rfl)⟩

/-- C10: `run_fabric_pipeline` never propagates an exception — for every
outcome of storage setup, secret retrieval, the pipeline run and the
database step, it returns either a success dict, or an error dict whose
error field contains the failure message prefixed by
`Pipeline failed: `. -/
theorem run_fabric_pipeline_total
    (storageSetup : Except String (String × String × String))
    (secretsFetch : Except String FabricSecrets)
    (pipelineRun : Except String Nat) (dbIntegration : Except String Unit) :
    (∃ t, (run_fabric_pipeline storageSetup secretsFetch pipelineRun dbIntegration).1
        = .success t) ∨
      ∃ m, (run_fabric_pipeline storageSetup secretsFetch pipelineRun dbIntegration).1
        = .error ("Pipeline failed: " ++ m) := by
  rcases storageSetup with e | st
  · exact Or.inr ⟨e, by simp [run_fabric_pipeline]⟩
  rcases secretsFetch with e | s
  · exact Or.inr ⟨e, by simp [run_fabric_pipeline]⟩
  cases hk : s.apiKey with
  | none =>
    refine Or.inr ⟨"HOPPE_API_KEY not found in environment or secrets", ?_⟩
    simp [run_fabric_pipeline, hk]
  | some k =>
    rcases pipelineRun with e | t
    · exact Or.inr ⟨e, by simp [run_fabric_pipeline, hk]⟩
    cases hc : s.dbConn with
    | none => exact Or.inl ⟨t, by simp [run_fabric_pipeline, hk, hc]⟩
    | some c =>
      rcases dbIntegration with e | u
      · exact Or.inl ⟨t, by simp [run_fabric_pipeline, hk, hc]⟩
      · exact Or.inl ⟨t, by simp [run_fabric_pipeline, hk, hc]⟩

/-! ## Further merger helpers -/

theorem hasKey_of_mem {s : SignalReading} {l : List SignalReading} (h : s ∈ l) :
    hasKey s.key l = true := by
  simp only [hasKey, List.any_eq_true]
  exact ⟨s, h, by simp⟩

theorem hasKey_append (k : Nat × Nat × Nat) (A B : List SignalReading) :
    hasKey k (A ++ B) = (hasKey k A || hasKey k B) := by
  simp [hasKey]

theorem filter_idem (p : SignalReading → Bool) (l : List SignalReading) :
    (l.filter p).filter p = l.filter p := by
  rw [List.filter_filter]
  exact List.filter_congr (fun x _ => Bool.and_self _)

/-! ## Claim theorems for the ReconciliationMerger -/

/-- C1: precedence — for a uniqueness key present both in the reference
readings (tag `old`) and in the fresh readings (tag `new`) with
different values, the merged output contains exactly the new-tagged
record for that key, hence the `new` value. -/
theorem reconciliation_new_over_old
    (reference today fresh : List SignalReading) (k : Nat × Nat × Nat)
    (rOld rNew : SignalReading)
    (hOld : reference.find? (fun s => decide (s.key = k)) = some rOld)
    (hNew : fresh.reverse.find? (fun s => decide (s.key = k)) = some rNew)
    (hne : rOld.value ≠ rNew.value) :
    (reconciliationMerge reference today fresh).filter (fun s => decide (s.key = k))
      = [rNew] := by
  apply filter_dedupKeys_find?
  rw [List.find?_append, List.find?_append, hNew]
  rfl

/-- Witness for C1: key `(1, 2, 300)` carries value `5` in the reference
readings and value `7` in the fresh readings; the merged output holds
exactly the fresh record. -/
theorem reconciliation_new_over_old_witness :
    ([⟨1, 2, "sog", 300, some 5⟩] : List SignalReading).find?
        (fun s => decide (s.key = (1, 2, 300))) = some ⟨1, 2, "sog", 300, some 5⟩ ∧
      ([⟨1, 2, "sog", 300, some 7⟩] : List SignalReading).reverse.find?
        (fun s => decide (s.key = (1, 2, 300))) = some ⟨1, 2, "sog", 300, some 7⟩ ∧
      (reconciliationMerge [⟨1, 2, "sog", 300, some 5⟩] []
          [⟨1, 2, "sog", 300, some 7⟩]).filter (fun s => decide (s.key = (1, 2, 300)))
        = [⟨1, 2, "sog", 300, some 7⟩] :=
  ⟨by decide, by decide,
    reconciliation_new_over_old [⟨1, 2, "sog", 300, some 5⟩] []
      [⟨1, 2, "sog", 300, some 7⟩] (1, 2, 300) ⟨1, 2, "sog", 300, some 5⟩
      ⟨1, 2, "sog", 300, some 7⟩ (by decide) (by decide) (by decide)⟩

/-- C2: historical preservation — a uniqueness key present only in the
reference readings (no `new`- or `today`-tagged record for it) survives
unchanged into the merged output. -/
theorem reconciliation_old_only_preserved
    (reference today fresh : List SignalReading) (k : Nat × Nat × Nat)
    (rOld : SignalReading)
    (hNew : hasKey k fresh = false) (hToday : hasKey k today = false)
    (hOld : reference.find? (fun s => decide (s.key = k)) = some rOld) :
    (reconciliationMerge reference today fresh).filter (fun s => decide (s.key = k))
      = [rOld] := by
  apply filter_dedupKeys_find?
  rw [List.find?_append, List.find?_append]
  have h1 : fresh.reverse.find? (fun s => decide (s.key = k)) = none := by
    rw [List.find?_eq_none]
    intro x hx
    simp only [decide_eq_true_eq]
    intro hxk
    have hx2 : hasKey k fresh = true := by
      simp only [hasKey, List.any_eq_true]
      exact ⟨x, List.mem_reverse.mp hx, by simp [hxk]⟩
    rw [hx2] at hNew
    cases hNew
  have h2 : today.find? (fun s => decide (s.key = k)) = none := by
    rw [List.find?_eq_none]
    intro x hx
    simp only [decide_eq_true_eq]
    intro hxk
    have hx2 : hasKey k today = true := by
      simp only [hasKey, List.any_eq_true]
      exact ⟨x, hx, by simp [hxk]⟩
    rw [hx2] at hToday
    cases hToday
  rw [h1, h2, hOld]
  rfl

/-- Witness for C2: key `(3, 4, 500)` exists only in the reference
readings, and its record survives into the merged output unchanged. -/
theorem reconciliation_old_only_preserved_witness :
    hasKey (3, 4, 500) ([⟨1, 2, "sog", 300, some 7⟩] : List SignalReading) = false ∧
      hasKey (3, 4, 500) ([] : List SignalReading) = false ∧
      ([⟨3, 4, "stw", 500, some 9⟩] : List SignalReading).find?
        (fun s => decide (s.key = (3, 4, 500))) = some ⟨3, 4, "stw", 500, some 9⟩ ∧
      (reconciliationMerge [⟨3, 4, "stw", 500, some 9⟩] []
          [⟨1, 2, "sog", 300, some 7⟩]).filter (fun s => decide (s.key = (3, 4, 500)))
        = [⟨3, 4, "stw", 500, some 9⟩] :=
  ⟨by decide, by decide, by decide,
    reconciliation_old_only_preserved [⟨3, 4, "stw", 500, some 9⟩] []
      [⟨1, 2, "sog", 300, some 7⟩] (3, 4, 500) ⟨3, 4, "stw", 500, some 9⟩
      (by decide) (by decide) (by decide)⟩

/-- C3: duplicate same-timestamp fresh reads — given two `new`-tagged
records with the same uniqueness key but different values in one run's
fetch sequence, the merger keeps the one that occurs later in fetch
order and drops the earlier one. -/
theorem reconciliation_last_new_wins
    (reference today l1 l2 l3 : List SignalReading) (r1 r2 : SignalReading)
    (hk : r1.key = r2.key) (hv : r1.value ≠ r2.value)
    (h3 : hasKey r2.key l3 = false) :
    (reconciliationMerge reference today (l1 ++ r1 :: (l2 ++ r2 :: l3))).filter
        (fun s => decide (s.key = r2.key)) = [r2] := by
  apply filter_dedupKeys_find?
  rw [List.find?_append, List.find?_append]
  have hrev : (l1 ++ r1 :: (l2 ++ r2 :: l3)).reverse.find?
      (fun s => decide (s.key = r2.key)) = some r2 := by
    have hshape : (l1 ++ r1 :: (l2 ++ r2 :: l3)).reverse
        = l3.reverse ++ r2 :: (l2.reverse ++ r1 :: l1.reverse) := by
      simp [List.reverse_append, List.reverse_cons, List.append_assoc,
        List.singleton_append]
    rw [hshape, List.find?_append]
    have h3r : l3.reverse.find? (fun s => decide (s.key = r2.key)) = none := by
      rw [List.find?_eq_none]
      intro x hx
      simp only [decide_eq_true_eq]
      intro hxk
      have hx2 : hasKey r2.key l3 = true := by
        simp only [hasKey, List.any_eq_true]
        exact ⟨x, List.mem_reverse.mp hx, by simp [hxk]⟩
      rw [hx2] at h3
      cases h3
    rw [h3r, find?_cons_pos (fun s => decide (s.key = r2.key)) r2 _ (by simp)]
    rfl
  rw [hrev]
  rfl

/-- Witness for C3: two fresh records for key `(1, 2, 300)`, value `5`
arriving before value `7`; the merged output holds exactly the later
record. -/
theorem reconciliation_last_new_wins_witness :
    (⟨1, 2, "sog", 300, some 5⟩ : SignalReading).key
        = (⟨1, 2, "sog", 300, some 7⟩ : SignalReading).key ∧
      (⟨1, 2, "sog", 300, some 5⟩ : SignalReading).value
        ≠ (⟨1, 2, "sog", 300, some 7⟩ : SignalReading).value ∧
      hasKey (⟨1, 2, "sog", 300, some 7⟩ : SignalReading).key [] = false ∧
      (reconciliationMerge [] []
          ([] ++ ⟨1, 2, "sog", 300, some 5⟩ :: ([] ++ ⟨1, 2, "sog", 300, some 7⟩ :: []))).filter
        (fun s => decide (s.key = (⟨1, 2, "sog", 300, some 7⟩ : SignalReading).key))
        = [⟨1, 2, "sog", 300, some 7⟩] :=
  ⟨by decide, by decide, by decide,
    reconciliation_last_new_wins [] [] [] [] [] ⟨1, 2, "sog", 300, some 5⟩
      ⟨1, 2, "sog", 300, some 7⟩ (by decide) (by decide) (by decide)⟩

/-- C4: idempotence — merging a second time with the same fresh
readings, taking the first merge's output as the today readings, yields
the first merge's output again (no duplicate accumulation). -/
theorem reconciliation_idempotent (reference today fresh : List SignalReading) :
    reconciliationMerge reference (reconciliationMerge reference today fresh) fresh
      = reconciliationMerge reference today fresh := by
  unfold reconciliationMerge
  simp only [List.append_assoc]
  generalize hM : dedupKeys (fresh.reverse ++ (today ++ reference)) = M
  have h1 : dedupKeys (fresh.reverse ++ (M ++ reference))
      = dedupKeys fresh.reverse
        ++ dedupKeys ((M ++ reference).filter (fun s => !(hasKey s.key fresh.reverse))) :=
    dedupKeys_append _ _
  rw [h1, List.filter_append,
    dedupKeys_append (M.filter (fun s => !(hasKey s.key fresh.reverse)))
      (reference.filter (fun s => !(hasKey s.key fresh.reverse)))]
  have h2 : (reference.filter (fun s => !(hasKey s.key fresh.reverse))).filter
      (fun s => !(hasKey s.key
        (M.filter (fun t => !(hasKey t.key fresh.reverse))))) = [] := by
    rw [List.filter_eq_nil_iff]
    intro a ha
    have haR : a ∈ reference := (List.mem_filter.mp ha).1
    have haQ : (!(hasKey a.key fresh.reverse)) = true := (List.mem_filter.mp ha).2
    have hkM : hasKey a.key M = true := by
      rw [← hM, hasKey_dedupKeys, hasKey_append, hasKey_append, hasKey_of_mem haR]
      simp
    have hkMQ : hasKey a.key (M.filter (fun t => !(hasKey t.key fresh.reverse))) = true := by
      rw [hasKey_filter (fun j => !(hasKey j fresh.reverse)) a.key M, haQ, hkM]
      rfl
    rw [hkMQ]
    simp
  rw [h2, dedupKeys_nil, List.append_nil]
  have h3 : dedupKeys (M.filter (fun s => !(hasKey s.key fresh.reverse)))
      = (dedupKeys M).filter (fun s => !(hasKey s.key fresh.reverse)) :=
    dedupKeys_filter (fun j => !(hasKey j fresh.reverse)) M
  have h4 : dedupKeys M = M := by
    rw [← hM]
    exact dedupKeys_idem _
  rw [h3, h4]
  have h5 : M.filter (fun s => !(hasKey s.key fresh.reverse))
      = dedupKeys ((today ++ reference).filter
          (fun s => !(hasKey s.key fresh.reverse))) := by
    rw [← hM, dedupKeys_append fresh.reverse (today ++ reference), List.filter_append]
    have h6 : (dedupKeys fresh.reverse).filter
        (fun s => !(hasKey s.key fresh.reverse)) = [] := by
      rw [List.filter_eq_nil_iff]
      intro a ha
      have haF : a ∈ fresh.reverse := mem_of_mem_dedupKeys _ a ha
      rw [hasKey_of_mem haF]
      simp
    have h7 : (dedupKeys ((today ++ reference).filter
          (fun s => !(hasKey s.key fresh.reverse)))).filter
          (fun s => !(hasKey s.key fresh.reverse))
        = dedupKeys ((today ++ reference).filter
            (fun s => !(hasKey s.key fresh.reverse))) := by
      rw [← dedupKeys_filter (fun j => !(hasKey j fresh.reverse)),
        filter_idem (fun s => !(hasKey s.key fresh.reverse)) (today ++ reference)]
    rw [h6, h7, List.nil_append]
  rw [h5, ← dedupKeys_append fresh.reverse (today ++ reference)]
  exact hM

/-! ## Rotator lemmas -/

theorem rotateWindow_eq_drop (N : Nat) (hN : 1 ≤ N) (w : List Nat) (p : Nat)
    (h : w.length ≤ N) :
    rotateWindow N w p = (w ++ [p]).drop (w.length + 1 - N) := by
  unfold rotateWindow
  by_cases hlt : w.length < N
  · rw [if_pos hlt]
    have hz : w.length + 1 - N = 0 := by omega
    rw [hz, List.drop_zero]
  · rw [if_neg hlt]
    have hle : w.length + 1 - N ≤ w.length := by omega
    rw [List.drop_append_of_le_length hle]

theorem foldl_rotateWindow (N : Nat) (hN : 1 ≤ N) :
    ∀ (ps w : List Nat), w.length ≤ N →
      ps.foldl (rotateWindow N) w = (w ++ ps).drop (w.length + ps.length - N)
  | [], w, h => by
    have hz : w.length + ([] : List Nat).length - N = 0 := by
      simp only [List.length_nil]
      omega
    rw [List.foldl_nil, hz, List.append_nil, List.drop_zero]
  | p :: ps, w, h => by
    have hrot := rotateWindow_eq_drop N hN w p h
    have hlen2 : (rotateWindow N w p).length ≤ N := by
      rw [hrot, List.length_drop, List.length_append]
      simp only [List.length_singleton]
      omega
    rw [List.foldl_cons, foldl_rotateWindow N hN ps (rotateWindow N w p) hlen2, hrot,
      List.length_drop, List.length_append]
    simp only [List.length_singleton]
    rw [← List.drop_append_of_le_length
        (by simp only [List.length_append, List.length_singleton]; omega),
      List.drop_drop]
    have hshape : (w ++ [p]) ++ ps = w ++ p :: ps := by
      simp
    rw [hshape]
    congr 1
    simp only [List.length_cons]
    omega

/-! ## Gap detector lemmas -/

theorem detectGapsAux_split (t : Nat) (v : Int) :
    ∀ (xs ys : List (Nat × Option Int)) (cur : Option (Nat × Nat)),
      detectGapsAux (xs ++ (t, some v) :: ys) cur
        = detectGapsAux (xs ++ [(t, some v)]) cur ++ detectGapsAux ys none
  | [], ys, cur => by
    cases cur with
    | none => rfl
    | some g => rfl
  | (tx, vx) :: xs, ys, cur => by
    cases vx with
    | none =>
      cases cur with
      | none => exact detectGapsAux_split t v xs ys (some (tx, tx))
      | some g => exact detectGapsAux_split t v xs ys (some (g.1, tx))
    | some wx =>
      cases cur with
      | none => exact detectGapsAux_split t v xs ys none
      | some g =>
        show g :: detectGapsAux (xs ++ (t, some v) :: ys) none
            = g :: detectGapsAux (xs ++ [(t, some v)]) none ++ detectGapsAux ys none
        rw [List.cons_append, detectGapsAux_split t v xs ys none]

theorem detectGapsAux_noneRun :
    ∀ (run : List (Nat × Option Int)), (∀ x ∈ run, x.2 = none) →
      ∀ (s e : Nat) (rest : List (Nat × Option Int)),
        detectGapsAux (run ++ rest) (some (s, e))
          = detectGapsAux rest (some (s, (run.getLastD (e, none)).1))
  | [], h, s, e, rest => rfl
  | (t0, v0) :: run2, h, s, e, rest => by
    have hv0 : v0 = none := h (t0, v0) (List.mem_cons_self _ _)
    subst hv0
    rw [List.getLastD_cons]
    exact detectGapsAux_noneRun run2 (fun x hx => h x (List.mem_cons_of_mem _ hx)) s t0 rest

/-! ## Claim theorems for the rotator and the gap detector -/

/-- C5: window rotation bound — with retention `N`, any sequence of
daily rotations keeps the reference window at no more than `N`
partitions (oldest evicted from the front first); in particular, after
`N + 1` consecutive daily rotations starting from an empty window the
window holds exactly `N` partitions and the partition admitted `N + 1`
rotations ago is absent. -/
theorem referenceWindow_rotation_bound (N : Nat) (hN : 1 ≤ N) :
    (∀ (w ps : List Nat), w.length ≤ N → (ps.foldl (rotateWindow N) w).length ≤ N)
      ∧ ∀ (p0 : Nat) (rest : List Nat), rest.length = N → p0 ∉ rest →
          ((p0 :: rest).foldl (rotateWindow N) []).length = N
            ∧ p0 ∉ (p0 :: rest).foldl (rotateWindow N) [] := by
  constructor
  · intro w ps h
    rw [foldl_rotateWindow N hN ps w h, List.length_drop, List.length_append]
    omega
  · intro p0 rest hlen hni
    have h0 : ([] : List Nat).length ≤ N := by simp
    rw [foldl_rotateWindow N hN (p0 :: rest) [] h0]
    simp only [List.nil_append, List.length_nil, List.length_cons, Nat.zero_add]
    have hone : rest.length + 1 - N = 1 := by omega
    rw [hone, List.drop_one, List.tail_cons]
    exact ⟨hlen, hni⟩

/-- Witness for C5: retention `2`, rotations admitting partitions
`0, 1, 2` in order: the window ends with exactly `2` partitions and
partition `0` is gone. -/
theorem referenceWindow_rotation_bound_witness :
    1 ≤ 2 ∧ ([1, 2] : List Nat).length = 2 ∧ (0 : Nat) ∉ ([1, 2] : List Nat)
      ∧ (([0, 1, 2] : List Nat).foldl (rotateWindow 2) []).length = 2
      ∧ (0 : Nat) ∉ ([0, 1, 2] : List Nat).foldl (rotateWindow 2) [] :=
  ⟨by decide, by decide, by decide,
    ((referenceWindow_rotation_bound 2 (by decide)).2 0 [1, 2] (by decide) (by decide)).1,
    ((referenceWindow_rotation_bound 2 (by decide)).2 0 [1, 2] (by decide) (by decide)).2⟩

/-- C6: gap correctness — on a per-signal series, a maximal run of
consecutive absent values (flanked by present readings) yields exactly
one Gap spanning the run's first and last timestamps, with no minimum
run length; in particular the series
`[10:00 = 5, 10:05 = None, 10:10 = None, 10:15 = 7]` yields exactly the
single Gap `10:05`–`10:10` (see the witness). -/
theorem gapDetector_maximal_run (xs ys run : List (Nat × Option Int))
    (a b : Nat) (u v : Int) (h1 : run ≠ []) (h2 : ∀ x ∈ run, x.2 = none) :
    detectGaps (xs ++ (a, some u) :: (run ++ (b, some v) :: ys))
      = detectGaps (xs ++ [(a, some u)])
        ++ ((run.headD (a, none)).1, (run.getLastD (a, none)).1) :: detectGaps ys := by
  unfold detectGaps
  rw [detectGapsAux_split a u xs (run ++ (b, some v) :: ys) none]
  congr 1
  cases run with
  | nil => exact absurd rfl h1
  | cons r0 run2 =>
    rcases r0 with ⟨t0, v0⟩
    have hv0 : v0 = none := h2 (t0, v0) (List.mem_cons_self _ _)
    subst hv0
    rw [List.headD_cons, List.getLastD_cons]
    show detectGapsAux (run2 ++ (b, some v) :: ys) (some (t0, t0))
        = (t0, (run2.getLastD (t0, none)).1) :: detectGapsAux ys none
    rw [detectGapsAux_noneRun run2 (fun x hx => h2 x (List.mem_cons_of_mem _ hx)) t0 t0
      ((b, some v) :: ys)]
    rfl

/-- Witness for C6: the spec's example series
`[10:00 = 5, 10:05 = None, 10:10 = None, 10:15 = 7]` (timestamps as
minutes of day) yields exactly one Gap spanning `10:05`–`10:10`. -/
theorem gapDetector_maximal_run_witness :
    detectGaps ([] ++ (600, some (5 : Int))
        :: ([((605 : Nat), (none : Option Int)), (610, none)] ++ (615, some 7) :: []))
      = [(605, 610)] :=
  (gapDetector_maximal_run [] [] [(605, none), (610, none)] 600 615 5 7 (by decide)
    (by decide)).trans (by decide)

end Hoppe
